import Mathlib

/-!
Verification of the click-tracking core (tele.py): catalog extraction,
daily-log extraction, aggregation with deduplication, site resolution and
daily summarization.  Text is modelled as `List Char` (ASCII fragment of
Python string semantics), HTML pages as their already-located table
structure (BeautifulSoup queries are abstracted into the `Page` record),
and the network as a function from URL to an optional fetched page.
-/

namespace Tele

/-! ## Python string primitives (ASCII model) -/

/-- Characters stripped by `str.strip()` (ASCII fragment). -/
def pyWhitespace (c : Char) : Bool :=
  c = ' ' || c = '\t' || c = '\n' || c = '\r' || c = Char.ofNat 11 || c = Char.ofNat 12

/-- Python `str.strip()`: drop leading and trailing whitespace. -/
def pyStrip (cs : List Char) : List Char :=
  ((cs.dropWhile pyWhitespace).reverse.dropWhile pyWhitespace).reverse

/-- Boolean prefix test on character lists. -/
def beginsWith : List Char → List Char → Bool
  | [], _ => true
  | _ :: _, [] => false
  | a :: t1, b :: t2 => a = b && beginsWith t1 t2

/-- Python `needle in hay` substring test. -/
def containsSub (needle hay : List Char) : Bool :=
  match hay with
  | [] => needle.isEmpty
  | _ :: t => beginsWith needle hay || containsSub needle t

/-! ## urlparse / hostname normalization (tele.py `hostname_of`) -/

/-- Characters `urlsplit` removes anywhere in the URL (tab, CR, LF), after
dropping leading C0-control-or-space characters.  (The IPv6 bracket
validation branch of `urlsplit` is not modelled; inputs here are domain
names and plain http(s) URLs.) -/
def stripUnsafe (cs : List Char) : List Char :=
  (cs.dropWhile (fun c => c.toNat ≤ 32)).filter (fun c => ¬ (c = '\t' ∨ c = '\r' ∨ c = '\n'))

/-- Characters allowed in a URL scheme. -/
def schemeChar (c : Char) : Bool :=
  c.isAlpha || c.isDigit || c = '+' || c = '-' || c = '.'

/-- Split a string at its first colon, if any. -/
def splitOnColon : List Char → Option (List Char × List Char)
  | [] => none
  | c :: t =>
    if c = ':' then some ([], t)
    else
      match splitOnColon t with
      | some (a, b) => some (c :: a, b)
      | none => none

/-- Drop a leading `scheme:` as `urlsplit` does (first colon, nonempty
alphabetic-led all-scheme-chars prefix). -/
def dropScheme (cs : List Char) : List Char :=
  match splitOnColon cs with
  | some (pre, post) =>
    if ¬ pre = [] ∧ (pre.headD ' ').isAlpha ∧ pre.all schemeChar then post else cs
  | none => cs

/-- Python `urlparse(u).netloc`: after scheme removal, the text between a leading
`//` and the next `/`, `?` or `#`; empty when there is no `//`. -/
def netlocOf (cs : List Char) : List Char :=
  match dropScheme (stripUnsafe cs) with
  | '/' :: '/' :: rest => rest.takeWhile (fun c => ¬ (c = '/' ∨ c = '?' ∨ c = '#'))
  | _ => []

/-- tele.py `hostname_of`: URL authority if nonempty else the raw string,
lower-cased, with one leading `www.` stripped. -/
def hostname_of (u : List Char) : List Char :=
  let netloc := netlocOf u
  let netloc := if netloc = [] then u else netloc
  let host := netloc.map Char.toLower
  if beginsWith ("www.".data) host then host.drop 4 else host

/-! ## Digit extraction (tele.py `int(re.sub(r"[^\d]", "", s) or 0)`) -/

/-- Decimal value of a digit character. -/
def digitVal (c : Char) : Nat := c.toNat - 48

/-- Python `re.sub(r"[^\d]", "", s)`: keep only digit characters (ASCII model). -/
def reSubKeepDigits (cs : List Char) : List Char := cs.filter Char.isDigit

/-- Python `int` on a nonempty all-digit string. -/
def digitsToNat (ds : List Char) : Nat := ds.foldl (fun a c => 10 * a + digitVal c) 0

/-- The count-reduction step shared by both extractors:
`int(re.sub(r"[^\d]", "", s) or 0)`. -/
def pyExtractInt (cs : List Char) : Nat :=
  let t := reSubKeepDigits cs
  if t = [] then 0 else digitsToNat t

/-! ## HTML table abstraction -/

/-- One `<td>` cell, abstracted: its (BeautifulSoup-extracted) text, the
`href` of its first `<a>` if any, and the `onclick` attribute of its
`<button>` if any. -/
structure Td where
  text : List Char
  href : Option (List Char)
  onclick : Option (List Char)
deriving DecidableEq

abbrev Row := List Td

/-- Helper `_btn_href`: the first hyperlink target, or empty. -/
def btnHref (td : Td) : List Char := td.href.getD []

/-- A fetched HTML page, abstracted into the two BeautifulSoup queries the
code performs: the rows of the element with `id="data-table"` (if present),
and the `table tbody tr` row selection. -/
structure Page where
  table : Option (List Row)
  tbodyRows : List Row

def tdNull : Td := { text := [], href := none, onclick := none }

/-- Text of cell `i` of a row (null cell when out of range). -/
def cellTextAt (row : Row) (i : Nat) : List Char := (row.getD i tdNull).text

/-- Hyperlink target of cell `i` of a row. -/
def cellHrefAt (row : Row) (i : Nat) : List Char := btnHref (row.getD i tdNull)

/-! ## clear-URL extraction: `re.search(r"reloadThePage\('([^']+)'\)", onclick)` -/

/-- The single-quote character. -/
def sq : Char := Char.ofNat 39

def reloadPat : List Char := "reloadThePage(".data ++ [sq]

/-- Match the pattern at the head of the string, returning the group. -/
def matchReloadAt (cs : List Char) : Option (List Char) :=
  if beginsWith reloadPat cs then
    let rest := cs.drop reloadPat.length
    let grp := rest.takeWhile (fun c => ¬ c = sq)
    match rest.dropWhile (fun c => ¬ c = sq) with
    | _ :: c2 :: _ => if ¬ grp = [] ∧ c2 = ')' then some grp else none
    | _ => none
  else none

/-- Leftmost match of the `reloadThePage('...')` pattern. -/
def searchReload : List Char → Option (List Char)
  | [] => none
  | c :: t =>
    match matchReloadAt (c :: t) with
    | some g => some g
    | none => searchReload t

/-- The `clear_url` computed from cell 4. -/
def clearUrlOf (td : Td) : List Char :=
  match td.onclick with
  | some oc => (searchReload oc).getD []
  | none => []

/-! ## Site data model -/

structure Site where
  name : List Char
  domain : List Char
  site_type : List Char
  total_clicks : Nat
  clear_url : List Char
  view_clicks_url : List Char
  visits_url : List Char
  combined_url : List Char
  chart_url : List Char
  source : List Char
deriving DecidableEq

instance : Nonempty Td := ⟨{ text := [], href := none, onclick := none }⟩

instance : Nonempty Site :=
  ⟨{ name := [], domain := [], site_type := [], total_clicks := 0, clear_url := [],
     view_clicks_url := [], visits_url := [], combined_url := [], chart_url := [],
     source := [] }⟩

/-! ## Catalog Extractor (tele.py `parse_master_sites`) -/

/-- The Site built from a qualifying catalog row. -/
def mkMasterSite (src : List Char) (t0 t1 t2 t3 t4 t5 t6 t7 t8 : Td) : Site :=
  { name := pyStrip t0.text
    domain := pyStrip t1.text
    site_type := pyStrip t2.text
    total_clicks := pyExtractInt (pyStrip t3.text)
    clear_url := clearUrlOf t4
    view_clicks_url := btnHref t5
    visits_url := btnHref t6
    combined_url := btnHref t7
    chart_url := btnHref t8
    source := src }

/-- The row loop of `parse_master_sites`: skip rows with fewer than 9 cells,
keep a row only when its trimmed domain and its view-clicks href are
nonempty. -/
def parseMasterRows (src : List Char) : List Row → List Site
  | [] => []
  | row :: rest =>
    match row with
    | t0 :: t1 :: t2 :: t3 :: t4 :: t5 :: t6 :: t7 :: t8 :: _ =>
      if ¬ pyStrip t1.text = [] ∧ ¬ btnHref t5 = [] then
        mkMasterSite src t0 t1 t2 t3 t4 t5 t6 t7 t8 :: parseMasterRows src rest
      else parseMasterRows src rest
    | _ => parseMasterRows src rest

/-- tele.py `parse_master_sites`: empty when the `id="data-table"` element is
absent, else process all rows after the header row. -/
def parse_master_sites (table : Option (List Row)) (source_url : List Char) : List Site :=
  match table with
  | none => []
  | some rows => parseMasterRows source_url (rows.drop 1)

/-- Per-row characterization of the Catalog Extractor (used to state C5):
the Site a row contributes, if any. -/
def masterRowSite (src : List Char) (row : Row) : Option Site :=
  match row with
  | t0 :: t1 :: t2 :: t3 :: t4 :: t5 :: t6 :: t7 :: t8 :: _ =>
    if ¬ pyStrip t1.text = [] ∧ ¬ btnHref t5 = [] then
      some (mkMasterSite src t0 t1 t2 t3 t4 t5 t6 t7 t8)
    else none
  | _ => none

/-! ## Daily Log Extractor (tele.py `parse_daily_clicks_page`) -/

structure DailyRec where
  button_type : List Char
  date : List Char
  count : Nat
deriving DecidableEq

/-- Match `\d{4}-\d{2}-\d{2}` at the head of the string. -/
def matchDateAt : List Char → Option (List Char)
  | a :: b :: c :: d :: e :: f :: g :: h :: i :: j :: _ =>
    if a.isDigit ∧ b.isDigit ∧ c.isDigit ∧ d.isDigit ∧ e = '-' ∧
        f.isDigit ∧ g.isDigit ∧ h = '-' ∧ i.isDigit ∧ j.isDigit then
      some [a, b, c, d, e, f, g, h, i, j]
    else none
  | _ => none

/-- Python `re.search(r"\d{4}-\d{2}-\d{2}", s)`: leftmost match. -/
def searchDate : List Char → Option (List Char)
  | [] => none
  | c :: t =>
    match matchDateAt (c :: t) with
    | some m => some m
    | none => searchDate t

/-- Gregorian leap year. -/
def isLeap (y : Nat) : Bool := decide ((y % 4 = 0 ∧ ¬ y % 100 = 0) ∨ y % 400 = 0)

def daysInMonth (y m : Nat) : Nat :=
  if m = 2 then (if isLeap y then 29 else 28)
  else if m = 4 ∨ m = 6 ∨ m = 9 ∨ m = 11 then 30 else 31

/-- Python `datetime.strptime(s, "%Y-%m-%d")` succeeds: exactly four year digits,
dash, one or two month digits (value 1..12), dash, one or two day digits,
the whole string consumed, and the result a valid `datetime` date
(year at least 1, day within the month). -/
def strptimeValid (cs : List Char) : Bool :=
  match cs with
  | a :: b :: c :: d :: dash1 :: rest =>
    if a.isDigit ∧ b.isDigit ∧ c.isDigit ∧ d.isDigit ∧ dash1 = '-' then
      let y := digitsToNat [a, b, c, d]
      let ms := rest.takeWhile Char.isDigit
      match rest.dropWhile Char.isDigit with
      | dash2 :: ds =>
        if dash2 = '-' then
          decide ((ms.length = 1 ∨ ms.length = 2) ∧
            1 ≤ digitsToNat ms ∧ digitsToNat ms ≤ 12 ∧
            ¬ ds = [] ∧ ds.length ≤ 2 ∧ ds.all Char.isDigit ∧
            1 ≤ digitsToNat ds ∧ digitsToNat ds ≤ daysInMonth y (digitsToNat ms) ∧
            1 ≤ y)
        else false
      | [] => false
    else false
  | _ => false

/-- The date string a daily-log row uses: the first `\d{4}-\d{2}-\d{2}`
substring of the trimmed cell-1 text, else that full trimmed text. -/
def chosenDateOf (row : Row) : List Char :=
  (searchDate (pyStrip (cellTextAt row 1))).getD (pyStrip (cellTextAt row 1))

/-- Per-row characterization of the Daily Log Extractor (used to state C7). -/
def dailyRowRec (row : Row) : Option DailyRec :=
  match row with
  | t0 :: t1 :: t2 :: _ =>
    let date_text := pyStrip t1.text
    let date_str := (searchDate date_text).getD date_text
    if strptimeValid date_str then
      some { button_type := pyStrip t0.text, date := date_str,
             count := pyExtractInt (pyStrip t2.text) }
    else none
  | _ => none

/-- tele.py `parse_daily_clicks_page`, over the `table tbody tr` rows:
skip rows with fewer than 3 cells, discard rows whose date string does not
parse, keep the rest in order. -/
def parse_daily_clicks_page : List Row → List DailyRec
  | [] => []
  | row :: rest =>
    match row with
    | t0 :: t1 :: t2 :: _ =>
      let date_text := pyStrip t1.text
      let date_str := (searchDate date_text).getD date_text
      if strptimeValid date_str then
        { button_type := pyStrip t0.text, date := date_str,
          count := pyExtractInt (pyStrip t2.text) } :: parse_daily_clicks_page rest
      else parse_daily_clicks_page rest
    | _ => parse_daily_clicks_page rest

/-! ## Daily Summarizer (tele.py `summarize_for_date`) -/

structure DailySummary where
  by_button : List (List Char × Nat)
  total : Nat
deriving DecidableEq

/-- Lookup in the insertion-ordered dict model. -/
def lookupBtn : List (List Char × Nat) → List Char → Option Nat
  | [], _ => none
  | e :: rest, c => if e.1 = c then some e.2 else lookupBtn rest c

/-- Python `d[k] = d.get(k, 0) + v` on an insertion-ordered dict: update in place
or append. -/
def upsertAdd : List (List Char × Nat) → List Char → Nat → List (List Char × Nat)
  | [], k, v => [(k, v)]
  | e :: rest, k, v =>
    if e.1 = k then (e.1, e.2 + v) :: rest else e :: upsertAdd rest k v

/-- The accumulation loop of `summarize_for_date`. -/
def summarizeGo (target : List Char) :
    List (List Char × Nat) → Nat → List DailyRec → DailySummary
  | m, t, [] => { by_button := m, total := t }
  | m, t, r :: rest =>
    if r.date = target then
      summarizeGo target (upsertAdd m r.button_type r.count) (t + r.count) rest
    else summarizeGo target m t rest

/-- tele.py `summarize_for_date`. -/
def summarize_for_date (records : List DailyRec) (target : List Char) : DailySummary :=
  summarizeGo target [] 0 records

/-! ## Site Resolver (tele.py `pick_site`) -/

/-- Python `needle.strip().lower()`. -/
def normQuery (needle : List Char) : List Char := (pyStrip needle).map Char.toLower

/-- Tier 1 comprehension: exact normalized-hostname match. -/
def exactHits (sites : List Site) (needle : List Char) : List Site :=
  sites.filter (fun s => hostname_of s.domain = hostname_of (normQuery needle))

/-- Tier 2 comprehension: query contained in the lower-cased domain. -/
def domainHits (sites : List Site) (needle : List Char) : List Site :=
  sites.filter (fun s => containsSub (normQuery needle) (s.domain.map Char.toLower))

/-- Tier 3 comprehension: query contained in the lower-cased name. -/
def nameHits (sites : List Site) (needle : List Char) : List Site :=
  sites.filter (fun s => containsSub (normQuery needle) (s.name.map Char.toLower))

/-- Python `sorted(hits, key=lambda s: len(s.get("domain","")))[0]`: the sort
is stable and ascending, so index 0 is the first element whose domain length
is minimal. -/
def firstMinByDomainLen (s : Site) (l : List Site) : Site :=
  l.foldl (fun best t => if t.domain.length < best.domain.length then t else best) s

/-- tele.py `pick_site`. -/
def pick_site (sites : List Site) (needle : List Char) : Option Site :=
  if needle = [] then none
  else
    match exactHits sites needle with
    | e :: es => some (firstMinByDomainLen e es)
    | [] =>
      match domainHits sites needle with
      | e :: es => some (firstMinByDomainLen e es)
      | [] =>
        match nameHits sites needle with
        | e :: _ => some e
        | [] => none

/-! ## Source Aggregator (tele.py `build_single_clicks_site`, `fetch_all_sites`) -/

inductive SrcKind where
  | master
  | clicks
deriving DecidableEq

/-- One entry of the `SOURCES` configuration. -/
structure SourceCfg where
  kind : SrcKind
  url : List Char
  name : Option (List Char)
  domain : Option (List Char)
  stype : Option (List Char)

/-- Python `a or b` on optional/possibly-empty strings. -/
def pyOr (o : Option (List Char)) (d : List Char) : List Char :=
  match o with
  | some s => if s = [] then d else s
  | none => d

/-- tele.py `build_single_clicks_site`; the network is `env`, `none` is a
fetch failure (the exception the code swallows, leaving `total_clicks` 0). -/
def build_single_clicks_site (env : List Char → Option Page) (e : SourceCfg) : Site :=
  { name := pyOr e.name (pyOr e.domain (hostname_of e.url))
    domain := pyOr e.domain (hostname_of e.url)
    site_type := pyOr e.stype ("single".data)
    total_clicks :=
      match env e.url with
      | some page => ((parse_daily_clicks_page page.tbodyRows).map (fun r => r.count)).sum
      | none => 0
    clear_url := []
    view_clicks_url := e.url
    visits_url := []
    combined_url := []
    chart_url := []
    source := e.url }

/-- Contribution of one configured source to `all_sites`: a failing fetch of
a master source is the caught-and-skipped branch. -/
def gatherSource (env : List Char → Option Page) (src : SourceCfg) : List Site :=
  match src.kind with
  | SrcKind.master =>
    match env src.url with
    | some page => parse_master_sites page.table src.url
    | none => []
  | SrcKind.clicks => [build_single_clicks_site env src]

/-- The source loop of `fetch_all_sites`. -/
def gatherAll (env : List Char → Option Page) : List SourceCfg → List Site
  | [] => []
  | s :: rest => gatherSource env s ++ gatherAll env rest

/-! ## Deduplication (tele.py `fetch_all_sites`, dict keyed by
`(hostname_of(domain), view_clicks_url)`) -/

abbrev Key := List Char × List Char

def siteKey (s : Site) : Key := (hostname_of s.domain, s.view_clicks_url)

/-- Dict lookup in the insertion-ordered model. -/
def alookupSite : List (Key × Site) → Key → Option Site
  | [], _ => none
  | e :: rest, k => if e.1 = k then some e.2 else alookupSite rest k

/-- Python `dedup[key] = s` when the key exists: replace the value in place. -/
def setInPlace : List (Key × Site) → Key → Site → List (Key × Site)
  | [], _, _ => []
  | e :: rest, k, s => if e.1 = k then (e.1, s) :: rest else e :: setInPlace rest k s

/-- The dedup loop of `fetch_all_sites`. -/
def dedupLoop : List (Key × Site) → List Site → List (Key × Site)
  | d, [] => d
  | d, s :: rest =>
    match alookupSite d (siteKey s) with
    | none => dedupLoop (d ++ [(siteKey s, s)]) rest
    | some kept =>
      if kept.total_clicks = 0 ∧ 0 < s.total_clicks then
        dedupLoop (setInPlace d (siteKey s) s) rest
      else dedupLoop d rest

/-- Python `list(dedup.values())`. -/
def dedupSites (l : List Site) : List Site := (dedupLoop [] l).map (fun e => e.2)

/-- tele.py `fetch_all_sites`, parameterized by the network and the
configured sources. -/
def fetch_all_sites (env : List Char → Option Page) (sources : List SourceCfg) : List Site :=
  dedupSites (gatherAll env sources)

/-! ## Specification-side deduplication (wording of claim C2 / spec §4.3) -/

/-- The replacement rule of §4.3: keep the first-seen Site unless the later
one has positive clicks while the kept one has zero. -/
def mergeRule (kept s : Site) : Site :=
  if kept.total_clicks = 0 ∧ 0 < s.total_clicks then s else kept

/-- Spec-side dedup with keys: one entry per key in order of first
appearance, the entry being the fold of the replacement rule over all Sites
with that key. -/
def specDedupE : List Site → List (Key × Site)
  | [] => []
  | s :: rest =>
    (siteKey s, (rest.filter (fun t => siteKey t = siteKey s)).foldl mergeRule s)
      :: specDedupE (rest.filter (fun t => ¬ siteKey t = siteKey s))
termination_by l => l.length
decreasing_by
  simp only [List.length_cons]
  exact Nat.lt_succ_of_le (List.length_filter_le _ _)

/-- Spec-side dedup as stated in §4.3: the deduplicated Site list. -/
def specDedup (l : List Site) : List Site := (specDedupE l).map (fun e => e.2)

/-- A dict entry after the remaining input `l` has been folded in. -/
def updEntry (l : List Site) (e : Key × Site) : Key × Site :=
  (e.1, (l.filter (fun t => siteKey t = e.1)).foldl mergeRule e.2)

/-! ## Concrete fixtures used by witnesses and counterexamples -/

def exSiteA : Site :=
  { name := "A".data, domain := "a.com".data, site_type := "s".data,
    total_clicks := 0, clear_url := [],
    view_clicks_url := "https://a.com/view_clicks.php".data,
    visits_url := [], combined_url := [], chart_url := [], source := "m".data }

def sdSite : Site :=
  { name := "Sdadi".data, domain := "sdadi-qarde.com".data, site_type := "s".data,
    total_clicks := 7, clear_url := [],
    view_clicks_url := "https://sdadi-qarde.com/view_clicks.php".data,
    visits_url := [], combined_url := [], chart_url := [], source := "m".data }

def oldSite : Site :=
  { name := "Old backup".data, domain := "old-sdadi-qarde.com.backup".data,
    site_type := "s".data, total_clicks := 3, clear_url := [],
    view_clicks_url := "https://old.example/view_clicks.php".data,
    visits_url := [], combined_url := [], chart_url := [], source := "m".data }

def exRecords : List DailyRec :=
  [ { button_type := "click".data, date := "2025-09-13".data, count := 5 },
    { button_type := "view".data, date := "2025-09-13".data, count := 3 },
    { button_type := "click".data, date := "2025-09-14".data, count := 9 } ]

def exRow1 : Row :=
  [ { text := "click".data, href := none, onclick := none },
    { text := " 2025-09-13 10:00 ".data, href := none, onclick := none },
    { text := "5 clicks".data, href := none, onclick := none } ]

def exDaily : DailyRec :=
  { button_type := "click".data, date := "2025-09-13".data, count := 5 }

def exPage : Page := { table := none, tbodyRows := [exRow1] }

def envFail : List Char → Option Page := fun _ => none

def envOk : List Char → Option Page := fun _ => some exPage

def cfgMaster : SourceCfg :=
  { kind := SrcKind.master, url := "https://khadimat.com/administrator/api.php".data,
    name := none, domain := none, stype := none }

def cfgClicks : SourceCfg :=
  { kind := SrcKind.clicks, url := "https://tasdedqard.com/view_clicks.php".data,
    name := some ("tasdedqard.com".data), domain := some ("tasdedqard.com".data),
    stype := some ("single".data) }

/-! ## Helper lemmas -/

lemma digitsToNat_eq_ofDigits (l : List Char) :
    digitsToNat l = Nat.ofDigits 10 ((l.map digitVal).reverse) := by
  have h : ∀ (l : List Char) (a : Nat),
      l.foldl (fun a c => 10 * a + digitVal c) a
        = a * 10 ^ l.length + Nat.ofDigits 10 ((l.map digitVal).reverse) := by
    intro l
    induction l with
    | nil => intro a; simp [Nat.ofDigits]
    | cons c t ih =>
      intro a
      simp only [List.foldl_cons, List.map_cons, List.reverse_cons, List.length_cons]
      rw [ih, Nat.ofDigits_append]
      simp only [List.length_reverse, List.length_map, Nat.ofDigits_cons, Nat.ofDigits_nil]
      push_cast
      ring
  simpa [digitsToNat] using h l 0

lemma lookupBtn_upsertAdd (m : List (List Char × Nat)) (k c : List Char) (v : Nat) :
    lookupBtn (upsertAdd m k v) c
      = if c = k then some ((lookupBtn m c).getD 0 + v) else lookupBtn m c := by
  induction m with
  | nil =>
    simp only [upsertAdd]
    by_cases h : c = k
    · subst h; simp [lookupBtn]
    · have h2 : ¬ k = c := fun hk => h hk.symm
      simp [lookupBtn, h, h2]
  | cons e rest ih =>
    simp only [upsertAdd]
    by_cases h1 : e.1 = k
    · rw [if_pos h1]
      by_cases h2 : e.1 = c
      · have hck : c = k := by rw [← h2]; exact h1
        simp [lookupBtn, h2, hck]
      · have hck : ¬ c = k := by
          intro hck
          exact h2 (by rw [h1, hck])
        simp [lookupBtn, h2, hck]
    · rw [if_neg h1]
      by_cases h2 : e.1 = c
      · have hck : ¬ c = k := by
          intro hck
          exact h1 (by rw [h2, hck])
        simp [lookupBtn, h2, hck]
      · simp [lookupBtn, h2, ih]

lemma summarizeGo_total (target : List Char) (recs : List DailyRec) :
    ∀ m t, (summarizeGo target m t recs).total
      = t + ((recs.filter (fun r => r.date = target)).map (fun r => r.count)).sum := by
  induction recs with
  | nil => intro m t; simp [summarizeGo]
  | cons r rest ih =>
    intro m t
    by_cases h : r.date = target <;>
      simp [summarizeGo, h, ih, List.filter_cons] <;> omega

lemma summarizeGo_nomatch (target : List Char) (recs : List DailyRec)
    (h : recs.filter (fun r => r.date = target) = []) :
    ∀ m t, summarizeGo target m t recs = { by_button := m, total := t } := by
  induction recs with
  | nil => intro m t; simp [summarizeGo]
  | cons r rest ih =>
    intro m t
    by_cases hr : r.date = target
    · exfalso
      have hmem : r ∈ List.filter (fun r => decide (r.date = target)) (r :: rest) := by
        simp [List.mem_filter, hr]
      rw [h] at hmem
      exact absurd hmem (List.not_mem_nil r)
    · have h2 : rest.filter (fun r => r.date = target) = [] := by
        rwa [List.filter_cons, if_neg (by simp [hr])] at h
      simp [summarizeGo, hr, ih h2]

lemma summarizeGo_lookup (target c : List Char) (recs : List DailyRec) :
    ∀ m t, lookupBtn (summarizeGo target m t recs).by_button c
      = if (lookupBtn m c).isSome
            ∨ ¬ recs.filter (fun r => r.date = target ∧ r.button_type = c) = [] then
          some ((lookupBtn m c).getD 0
            + ((recs.filter (fun r => r.date = target ∧ r.button_type = c)).map
                (fun r => r.count)).sum)
        else none := by
  induction recs with
  | nil => intro m t; cases hm : lookupBtn m c <;> simp [summarizeGo, hm]
  | cons r rest ih =>
    intro m t
    by_cases hd : r.date = target
    · by_cases hb : r.button_type = c
      · have hkey : lookupBtn (upsertAdd m r.button_type r.count) c
            = some ((lookupBtn m c).getD 0 + r.count) := by
          rw [lookupBtn_upsertAdd, if_pos hb.symm]
        have hstep : summarizeGo target m t (r :: rest)
            = summarizeGo target (upsertAdd m r.button_type r.count) (t + r.count) rest := by
          simp [summarizeGo, hd]
        rw [hstep, ih, hkey, List.filter_cons]
        simp [hd, hb, Nat.add_assoc]
      · have hcb : ¬ c = r.button_type := fun h => hb h.symm
        have hkey : lookupBtn (upsertAdd m r.button_type r.count) c = lookupBtn m c := by
          rw [lookupBtn_upsertAdd, if_neg hcb]
        have hstep : summarizeGo target m t (r :: rest)
            = summarizeGo target (upsertAdd m r.button_type r.count) (t + r.count) rest := by
          simp [summarizeGo, hd]
        rw [hstep, ih, hkey, List.filter_cons]
        simp [hb]
    · have hstep : summarizeGo target m t (r :: rest) = summarizeGo target m t rest := by
        simp [summarizeGo, hd]
      rw [hstep, ih, List.filter_cons]
      simp [hd]

lemma sum_upsertAdd (m : List (List Char × Nat)) (k : List Char) (v : Nat) :
    ((upsertAdd m k v).map (fun e => e.2)).sum = (m.map (fun e => e.2)).sum + v := by
  induction m with
  | nil => simp [upsertAdd]
  | cons e rest ih =>
    by_cases h : e.1 = k <;> simp [upsertAdd, h, ih] <;> omega

lemma summarizeGo_sum (target : List Char) (recs : List DailyRec) :
    ∀ m t, (((summarizeGo target m t recs).by_button).map (fun e => e.2)).sum
      = (m.map (fun e => e.2)).sum
        + ((recs.filter (fun r => r.date = target)).map (fun r => r.count)).sum := by
  induction recs with
  | nil => intro m t; simp [summarizeGo]
  | cons r rest ih =>
    intro m t
    by_cases h : r.date = target <;>
      simp [summarizeGo, h, ih, sum_upsertAdd, List.filter_cons] <;> omega

lemma containsSub_nil (hay : List Char) : containsSub [] hay = true := by
  induction hay with
  | nil => rfl
  | cons c t ih => simp [containsSub, beginsWith, ih]

lemma firstMinByDomainLen_mem (l : List Site) : ∀ s, firstMinByDomainLen s l ∈ s :: l := by
  induction l with
  | nil => intro s; simp [firstMinByDomainLen]
  | cons t rest ih =>
    intro s
    have hstep : firstMinByDomainLen s (t :: rest)
        = firstMinByDomainLen (if t.domain.length < s.domain.length then t else s) rest := rfl
    rcases List.mem_cons.1 (ih (if t.domain.length < s.domain.length then t else s)) with h1 | h1
    · rw [hstep, h1]
      by_cases hc : t.domain.length < s.domain.length
      · rw [if_pos hc]
        exact List.mem_cons.2 (Or.inr (List.mem_cons_self _ _))
      · rw [if_neg hc]
        exact List.mem_cons_self _ _
    · rw [hstep]
      exact List.mem_cons.2 (Or.inr (List.mem_cons.2 (Or.inr h1)))

lemma firstMinByDomainLen_le (l : List Site) : ∀ s, ∀ t ∈ s :: l,
    (firstMinByDomainLen s l).domain.length ≤ t.domain.length := by
  induction l with
  | nil =>
    intro s t ht
    simp at ht
    simp [firstMinByDomainLen, ht]
  | cons u rest ih =>
    intro s t ht
    have hs : firstMinByDomainLen s (u :: rest)
        = firstMinByDomainLen (if u.domain.length < s.domain.length then u else s) rest := rfl
    have hacc_s : (if u.domain.length < s.domain.length then u else s).domain.length
        ≤ s.domain.length := by
      by_cases hc : u.domain.length < s.domain.length <;> simp [hc] <;> omega
    have hacc_u : (if u.domain.length < s.domain.length then u else s).domain.length
        ≤ u.domain.length := by
      by_cases hc : u.domain.length < s.domain.length <;> simp [hc] <;> omega
    have hrec := ih (if u.domain.length < s.domain.length then u else s)
    have hrec_acc := hrec _ (List.mem_cons_self _ _)
    rcases List.mem_cons.1 ht with h1 | h1
    · rw [hs, h1]
      exact le_trans hrec_acc hacc_s
    · rcases List.mem_cons.1 h1 with h2 | h2
      · rw [hs, h2]
        exact le_trans hrec_acc hacc_u
      · rw [hs]
        exact hrec t (List.mem_cons.2 (Or.inr h2))

/-! ## Claim theorems -/

/-- Claim C6: for every raw count/total text string, the extracted integer
equals the integer denoted by the concatenation, in order, of the digit
characters of the input, and equals 0 when the input has no digits. -/
theorem extract_int_digits (cs : List Char) :
    pyExtractInt cs = Nat.ofDigits 10 (((cs.filter Char.isDigit).map digitVal).reverse)
    ∧ (cs.filter Char.isDigit = [] → pyExtractInt cs = 0) := by
  constructor
  · unfold pyExtractInt reSubKeepDigits
    by_cases h : cs.filter Char.isDigit = [] <;>
      simp [h, digitsToNat_eq_ofDigits, Nat.ofDigits]
  · intro h
    simp [pyExtractInt, reSubKeepDigits, h]

theorem extract_int_digits_witness : pyExtractInt ("abc".data) = 0 :=
  (extract_int_digits ("abc".data)).2 (by decide)

/-- Claim C4: `summarize_for_date` maps each category to the sum of counts
over the records matching the target date with that category (present in
the mapping exactly when such a record exists), its grand total is the sum
over all records matching the date, and no matching records yields the
empty mapping with total 0. -/
theorem summarize_matches_filter (records : List DailyRec) (target : List Char) :
    ((summarize_for_date records target).total
      = ((records.filter (fun r => r.date = target)).map (fun r => r.count)).sum)
    ∧ (∀ c, (lookupBtn (summarize_for_date records target).by_button c).getD 0
      = ((records.filter (fun r => r.date = target ∧ r.button_type = c)).map
          (fun r => r.count)).sum)
    ∧ (∀ c, (lookupBtn (summarize_for_date records target).by_button c).isSome
      ↔ ¬ records.filter (fun r => r.date = target ∧ r.button_type = c) = [])
    ∧ (records.filter (fun r => r.date = target) = [] →
      (summarize_for_date records target).by_button = []
        ∧ (summarize_for_date records target).total = 0) := by
  refine ⟨?_, ?_, ?_, ?_⟩
  · unfold summarize_for_date
    rw [summarizeGo_total]
    simp
  · intro c
    unfold summarize_for_date
    rw [summarizeGo_lookup]
    by_cases h : records.filter (fun r => r.date = target ∧ r.button_type = c) = []
    · have hcond : ¬ ((lookupBtn ([] : List (List Char × Nat)) c).isSome = true
          ∨ ¬ records.filter (fun r => r.date = target ∧ r.button_type = c) = []) := by
        rw [h]
        simp [lookupBtn]
      rw [if_neg hcond, h]
      simp
    · rw [if_pos (Or.inr h)]
      simp [lookupBtn]
  · intro c
    unfold summarize_for_date
    rw [summarizeGo_lookup]
    by_cases h : records.filter (fun r => r.date = target ∧ r.button_type = c) = []
    · have hcond : ¬ ((lookupBtn ([] : List (List Char × Nat)) c).isSome = true
          ∨ ¬ records.filter (fun r => r.date = target ∧ r.button_type = c) = []) := by
        rw [h]
        simp [lookupBtn]
      rw [if_neg hcond, h]
      simp
    · rw [if_pos (Or.inr h)]
      exact iff_of_true rfl h
  · intro h
    unfold summarize_for_date
    rw [summarizeGo_nomatch target records h]
    exact ⟨rfl, rfl⟩

theorem summarize_matches_filter_witness :
    (summarize_for_date exRecords ("2020-01-01".data)).by_button = []
      ∧ (summarize_for_date exRecords ("2020-01-01".data)).total = 0 :=
  (summarize_matches_filter exRecords ("2020-01-01".data)).2.2.2 (by decide)

/-- Claim C10: the grand total returned by `summarize_for_date` equals the
sum of the values of the per-category mapping it returns. -/
theorem summarize_total_consistent (records : List DailyRec) (target : List Char) :
    (((summarize_for_date records target).by_button).map (fun e => e.2)).sum
      = (summarize_for_date records target).total := by
  unfold summarize_for_date
  rw [summarizeGo_sum, summarizeGo_total]
  simp

/-- Claim C1, counterexample: a whitespace-only query against a nonempty
catalog selects a Site instead of the not-found result. -/
theorem pick_site_whitespace_counterexample :
    pick_site [exSiteA] (" ".data) = some exSiteA := by decide

/-- Claim C1, amended: `pick_site` returns the not-found result for the
empty query; a whitespace-only but nonempty query is stripped to the empty
search string, which matches every site in the domain-substring tier, so
against a nonempty catalog it selects a Site rather than returning
not-found. -/
theorem pick_site_empty_query :
    (∀ sites : List Site, pick_site sites [] = none)
    ∧ ∀ (sites : List Site) (needle : List Char),
        ¬ needle = [] → pyStrip needle = [] → ¬ sites = [] →
        (pick_site sites needle).isSome = true := by
  constructor
  · intro sites
    simp [pick_site]
  · intro sites needle hne hstrip hsites
    have hn : normQuery needle = [] := by simp [normQuery, hstrip]
    have hd : domainHits sites needle = sites := by
      unfold domainHits
      rw [hn]
      exact List.filter_eq_self.2 (fun a _ => containsSub_nil _)
    rw [pick_site, if_neg hne]
    cases he : exactHits sites needle with
    | cons e es => simp
    | nil =>
      rw [hd]
      cases hs : sites with
      | nil => exact absurd hs hsites
      | cons a t => simp

theorem pick_site_empty_query_witness :
    pick_site [] [] = none ∧ (pick_site [exSiteA] (" ".data)).isSome = true :=
  ⟨pick_site_empty_query.1 [],
    pick_site_empty_query.2 [exSiteA] (" ".data) (by decide) (by decide) (by decide)⟩

/-- Claim C3: for a nonempty query the resolver answers from the first
nonempty tier — exact normalized hostname, then query-in-domain, then
query-in-name — choosing a candidate of minimal raw-domain length in tiers
1 and 2 and the first candidate in catalog order in tier 3 (not-found only
when all tiers are empty). -/
theorem pick_site_tiered (sites : List Site) (needle : List Char) (hq : ¬ needle = []) :
    (¬ exactHits sites needle = [] →
      ∃ r, pick_site sites needle = some r ∧ r ∈ exactHits sites needle
        ∧ ∀ s ∈ exactHits sites needle, r.domain.length ≤ s.domain.length)
    ∧ (exactHits sites needle = [] → ¬ domainHits sites needle = [] →
      ∃ r, pick_site sites needle = some r ∧ r ∈ domainHits sites needle
        ∧ ∀ s ∈ domainHits sites needle, r.domain.length ≤ s.domain.length)
    ∧ (exactHits sites needle = [] → domainHits sites needle = [] →
      pick_site sites needle = (nameHits sites needle).head?) := by
  refine ⟨?_, ?_, ?_⟩
  · intro h1
    cases he : exactHits sites needle with
    | nil => exact absurd he h1
    | cons e es =>
      refine ⟨firstMinByDomainLen e es, ?_, ?_, ?_⟩
      · rw [pick_site, if_neg hq, he]
      · exact firstMinByDomainLen_mem es e
      · exact firstMinByDomainLen_le es e
  · intro h1 h2
    cases hdm : domainHits sites needle with
    | nil => exact absurd hdm h2
    | cons e es =>
      refine ⟨firstMinByDomainLen e es, ?_, ?_, ?_⟩
      · rw [pick_site, if_neg hq, h1, hdm]
      · exact firstMinByDomainLen_mem es e
      · exact firstMinByDomainLen_le es e
  · intro h1 h2
    rw [pick_site, if_neg hq, h1, h2]
    cases nameHits sites needle <;> simp

theorem pick_site_tiered_witness :
    ∃ r, pick_site [sdSite, oldSite] ("sdadi-qarde.com".data) = some r
      ∧ r ∈ exactHits [sdSite, oldSite] ("sdadi-qarde.com".data)
      ∧ ∀ s ∈ exactHits [sdSite, oldSite] ("sdadi-qarde.com".data),
          r.domain.length ≤ s.domain.length :=
  (pick_site_tiered [sdSite, oldSite] ("sdadi-qarde.com".data) (by decide)).1 (by decide)

lemma parseMasterRows_eq_filterMap (src : List Char) (rows : List Row) :
    parseMasterRows src rows = rows.filterMap (masterRowSite src) := by
  induction rows with
  | nil => rfl
  | cons row rest ih =>
    rcases row with _ | ⟨t0, row⟩
    · simp [parseMasterRows, masterRowSite, List.filterMap_cons, ih]
    rcases row with _ | ⟨t1, row⟩
    · simp [parseMasterRows, masterRowSite, List.filterMap_cons, ih]
    rcases row with _ | ⟨t2, row⟩
    · simp [parseMasterRows, masterRowSite, List.filterMap_cons, ih]
    rcases row with _ | ⟨t3, row⟩
    · simp [parseMasterRows, masterRowSite, List.filterMap_cons, ih]
    rcases row with _ | ⟨t4, row⟩
    · simp [parseMasterRows, masterRowSite, List.filterMap_cons, ih]
    rcases row with _ | ⟨t5, row⟩
    · simp [parseMasterRows, masterRowSite, List.filterMap_cons, ih]
    rcases row with _ | ⟨t6, row⟩
    · simp [parseMasterRows, masterRowSite, List.filterMap_cons, ih]
    rcases row with _ | ⟨t7, row⟩
    · simp [parseMasterRows, masterRowSite, List.filterMap_cons, ih]
    rcases row with _ | ⟨t8, tl⟩
    · simp [parseMasterRows, masterRowSite, List.filterMap_cons, ih]
    by_cases hc : ¬ pyStrip t1.text = [] ∧ ¬ btnHref t5 = [] <;>
      simp [parseMasterRows, masterRowSite, List.filterMap_cons, hc, ih]

lemma masterRowSite_isSome (src : List Char) (row : Row) :
    (masterRowSite src row).isSome
      ↔ (9 ≤ row.length ∧ ¬ pyStrip (cellTextAt row 1) = [] ∧ ¬ cellHrefAt row 5 = []) := by
  rcases row with _ | ⟨t0, row⟩
  · simp [masterRowSite]
  rcases row with _ | ⟨t1, row⟩
  · simp [masterRowSite]
  rcases row with _ | ⟨t2, row⟩
  · simp [masterRowSite]
  rcases row with _ | ⟨t3, row⟩
  · simp [masterRowSite]
  rcases row with _ | ⟨t4, row⟩
  · simp [masterRowSite]
  rcases row with _ | ⟨t5, row⟩
  · simp [masterRowSite]
  rcases row with _ | ⟨t6, row⟩
  · simp [masterRowSite]
  rcases row with _ | ⟨t7, row⟩
  · simp [masterRowSite]
  rcases row with _ | ⟨t8, tl⟩
  · simp [masterRowSite]
  by_cases hc : ¬ pyStrip t1.text = [] ∧ ¬ btnHref t5 = [] <;>
    simp [masterRowSite, cellTextAt, cellHrefAt, hc] <;> omega

/-- Claim C5: the Catalog Extractor returns the empty list when the
`id="data-table"` element is absent; otherwise it maps the rows after the
header row through a per-row extraction that keeps a row exactly when it
has at least 9 cells with a nonempty trimmed domain (cell 1) and a
nonempty hyperlink target in cell 5, preserving row order and tolerating
every malformed row. -/
theorem parse_master_sites_spec (src : List Char) :
    parse_master_sites none src = []
    ∧ (∀ rows : List Row,
        parse_master_sites (some rows) src = (rows.drop 1).filterMap (masterRowSite src))
    ∧ ∀ row : Row, (masterRowSite src row).isSome
        ↔ (9 ≤ row.length ∧ ¬ pyStrip (cellTextAt row 1) = [] ∧ ¬ cellHrefAt row 5 = []) :=
  ⟨rfl, fun rows => parseMasterRows_eq_filterMap src (rows.drop 1), masterRowSite_isSome src⟩

lemma parse_daily_eq_filterMap (rows : List Row) :
    parse_daily_clicks_page rows = rows.filterMap dailyRowRec := by
  induction rows with
  | nil => rfl
  | cons row rest ih =>
    rcases row with _ | ⟨t0, row⟩
    · simp [parse_daily_clicks_page, dailyRowRec, List.filterMap_cons, ih]
    rcases row with _ | ⟨t1, row⟩
    · simp [parse_daily_clicks_page, dailyRowRec, List.filterMap_cons, ih]
    rcases row with _ | ⟨t2, tl⟩
    · simp [parse_daily_clicks_page, dailyRowRec, List.filterMap_cons, ih]
    by_cases hc : strptimeValid ((searchDate (pyStrip t1.text)).getD (pyStrip t1.text)) = true <;>
      simp [parse_daily_clicks_page, dailyRowRec, List.filterMap_cons, hc, ih]

lemma dailyRowRec_isSome (row : Row) :
    (dailyRowRec row).isSome
      ↔ (3 ≤ row.length ∧ strptimeValid (chosenDateOf row) = true) := by
  rcases row with _ | ⟨t0, row⟩
  · simp [dailyRowRec]
  rcases row with _ | ⟨t1, row⟩
  · simp [dailyRowRec]
  rcases row with _ | ⟨t2, tl⟩
  · simp [dailyRowRec]
  by_cases hc : strptimeValid ((searchDate (pyStrip t1.text)).getD (pyStrip t1.text)) = true <;>
    simp [dailyRowRec, chosenDateOf, cellTextAt, hc] <;> omega

lemma dailyRowRec_date (row : Row) (rec : DailyRec) :
    dailyRowRec row = some rec → rec.date = chosenDateOf row := by
  rcases row with _ | ⟨t0, row⟩
  · simp [dailyRowRec]
  rcases row with _ | ⟨t1, row⟩
  · simp [dailyRowRec]
  rcases row with _ | ⟨t2, tl⟩
  · simp [dailyRowRec]
  by_cases hc : strptimeValid ((searchDate (pyStrip t1.text)).getD (pyStrip t1.text)) = true
  · intro h
    simp [dailyRowRec, hc] at h
    rw [← h]
    simp [chosenDateOf, cellTextAt]
  · intro h
    simp [dailyRowRec, hc] at h

/-- Claim C7: the Daily Log Extractor is a per-row filterMap over the table
body rows; a row contributes a record exactly when it has at least 3 cells
and its date string — the first `\d{4}-\d{2}-\d{2}` substring of the trimmed
cell-1 text, else that full trimmed text — parses as a valid calendar date,
and the record's date is exactly that string. -/
theorem parse_daily_rows_spec :
    (∀ rows : List Row, parse_daily_clicks_page rows = rows.filterMap dailyRowRec)
    ∧ (∀ row : Row, (dailyRowRec row).isSome
        ↔ (3 ≤ row.length ∧ strptimeValid (chosenDateOf row) = true))
    ∧ ∀ (row : Row) (rec : DailyRec),
        dailyRowRec row = some rec → rec.date = chosenDateOf row :=
  ⟨parse_daily_eq_filterMap, dailyRowRec_isSome, dailyRowRec_date⟩

theorem parse_daily_rows_spec_witness : exDaily.date = chosenDateOf exRow1 :=
  parse_daily_rows_spec.2.2 exRow1 exDaily (by decide)

lemma gatherAll_append (env : List Char → Option Page) (a b : List SourceCfg) :
    gatherAll env (a ++ b) = gatherAll env a ++ gatherAll env b := by
  induction a with
  | nil => simp [gatherAll]
  | cons s rest ih => simp [gatherAll, ih]

/-- Claim C8: a transport failure (or an absent data table) on a master
source removes exactly that source's contribution — the batch result is as
if the source were not configured, the other sources being processed
unchanged — and a single-site (clicks) source always yields its Site, with
`total_clicks` 0 on fetch failure and the sum of its parsed record counts
on success. -/
theorem source_failure_isolated (env : List Char → Option Page)
    (pre post : List SourceCfg) (src : SourceCfg) :
    (src.kind = SrcKind.master → env src.url = none →
      fetch_all_sites env (pre ++ src :: post) = fetch_all_sites env (pre ++ post))
    ∧ (src.kind = SrcKind.master → ∀ page, env src.url = some page → page.table = none →
      fetch_all_sites env (pre ++ src :: post) = fetch_all_sites env (pre ++ post))
    ∧ (src.kind = SrcKind.clicks →
      (env src.url = none → (build_single_clicks_site env src).total_clicks = 0)
      ∧ ∀ page, env src.url = some page →
        (build_single_clicks_site env src).total_clicks
          = ((parse_daily_clicks_page page.tbodyRows).map (fun r => r.count)).sum) := by
  have hsplit : ∀ henv : gatherSource env src = [],
      fetch_all_sites env (pre ++ src :: post) = fetch_all_sites env (pre ++ post) := by
    intro henv
    unfold fetch_all_sites
    rw [show src :: post = [src] ++ post from rfl, gatherAll_append, gatherAll_append,
      gatherAll_append]
    simp [gatherAll, henv]
  refine ⟨?_, ?_, ?_⟩
  · intro hk henv
    exact hsplit (by simp [gatherSource, hk, henv])
  · intro hk page henv htab
    exact hsplit (by simp [gatherSource, hk, henv, htab, parse_master_sites])
  · intro hk
    constructor
    · intro henv
      simp [build_single_clicks_site, henv]
    · intro page henv
      simp [build_single_clicks_site, henv]

theorem source_failure_isolated_witness :
    fetch_all_sites envFail ([cfgClicks] ++ cfgMaster :: []) = fetch_all_sites envFail ([cfgClicks] ++ [])
    ∧ (build_single_clicks_site envFail cfgClicks).total_clicks = 0
    ∧ (build_single_clicks_site envOk cfgClicks).total_clicks
        = ((parse_daily_clicks_page exPage.tbodyRows).map (fun r => r.count)).sum :=
  ⟨(source_failure_isolated envFail [cfgClicks] [] cfgMaster).1 rfl rfl,
    ((source_failure_isolated envFail [] [] cfgClicks).2.2 rfl).1 rfl,
    ((source_failure_isolated envOk [] [] cfgClicks).2.2 rfl).2 exPage rfl⟩

/-! ## Deduplication lemmas -/

lemma alookupSite_eq_none_iff (d : List (Key × Site)) (k : Key) :
    alookupSite d k = none ↔ k ∉ d.map (fun e => e.1) := by
  induction d with
  | nil => simp [alookupSite]
  | cons e rest ih =>
    by_cases h : e.1 = k
    · simp [alookupSite, h]
    · have h2 : ¬ k = e.1 := fun hk => h hk.symm
      simp [alookupSite, h, h2, ih]

lemma setInPlace_map_fst (d : List (Key × Site)) (k : Key) (s : Site) :
    (setInPlace d k s).map (fun e => e.1) = d.map (fun e => e.1) := by
  induction d with
  | nil => rfl
  | cons e rest ih =>
    by_cases h : e.1 = k <;> simp [setInPlace, h, ih]

lemma alookupSite_setInPlace_none (d : List (Key × Site)) (k : Key) (s : Site) (k' : Key) :
    alookupSite (setInPlace d k s) k' = none ↔ alookupSite d k' = none := by
  rw [alookupSite_eq_none_iff, alookupSite_eq_none_iff, setInPlace_map_fst]

lemma alookupSite_append_single_none (d : List (Key × Site)) (k : Key) (s : Site) (k' : Key) :
    alookupSite (d ++ [(k, s)]) k' = none ↔ (alookupSite d k' = none ∧ ¬ k' = k) := by
  rw [alookupSite_eq_none_iff, alookupSite_eq_none_iff]
  simp [List.map_append]

lemma alookupSite_mem_nodup : ∀ d : List (Key × Site), (d.map (fun e => e.1)).Nodup →
    ∀ (k : Key) (v : Site), alookupSite d k = some v → ∀ e ∈ d, e.1 = k → e.2 = v := by
  intro d
  induction d with
  | nil => simp
  | cons e0 tail ih =>
    intro hnd k v hl e he hek
    rcases List.mem_cons.1 he with h1 | h1
    · subst h1
      simp only [alookupSite] at hl
      rw [if_pos hek] at hl
      exact Option.some.inj hl
    · by_cases h0 : e0.1 = k
      · exfalso
        have hmem : k ∈ tail.map (fun e => e.1) := List.mem_map.2 ⟨e, h1, hek⟩
        have hn : e0.1 ∉ tail.map (fun e => e.1) :=
          (List.nodup_cons.1 (by simpa using hnd)).1
        rw [h0] at hn
        exact hn hmem
      · simp only [alookupSite] at hl
        rw [if_neg h0] at hl
        exact ih (List.nodup_cons.1 (by simpa using hnd)).2 k v hl e h1 hek

lemma updEntry_nil (e : Key × Site) : updEntry [] e = e := by
  simp [updEntry]

lemma updEntry_cons_ne (s : Site) (l : List Site) (e : Key × Site)
    (h : ¬ siteKey s = e.1) : updEntry (s :: l) e = updEntry l e := by
  simp [updEntry, List.filter_cons, h]

lemma updEntry_cons_eq (s : Site) (l : List Site) (e : Key × Site)
    (h : siteKey s = e.1) : updEntry (s :: l) e = updEntry l (e.1, mergeRule e.2 s) := by
  simp [updEntry, List.filter_cons, h]

lemma dedupLoop_cons_none {d : List (Key × Site)} {s : Site} {rest : List Site}
    (h : alookupSite d (siteKey s) = none) :
    dedupLoop d (s :: rest) = dedupLoop (d ++ [(siteKey s, s)]) rest := by
  simp only [dedupLoop, h]

lemma dedupLoop_cons_repl {d : List (Key × Site)} {s : Site} {rest : List Site} {kept : Site}
    (h : alookupSite d (siteKey s) = some kept)
    (hc : kept.total_clicks = 0 ∧ 0 < s.total_clicks) :
    dedupLoop d (s :: rest) = dedupLoop (setInPlace d (siteKey s) s) rest := by
  simp only [dedupLoop, h]
  rw [if_pos hc]

lemma dedupLoop_cons_keep {d : List (Key × Site)} {s : Site} {rest : List Site} {kept : Site}
    (h : alookupSite d (siteKey s) = some kept)
    (hc : ¬ (kept.total_clicks = 0 ∧ 0 < s.total_clicks)) :
    dedupLoop d (s :: rest) = dedupLoop d rest := by
  simp only [dedupLoop, h]
  rw [if_neg hc]

lemma setInPlace_map_updEntry (s : Site) (rest : List Site) :
    ∀ d : List (Key × Site), (d.map (fun e => e.1)).Nodup →
    ∀ kept : Site, alookupSite d (siteKey s) = some kept →
    (kept.total_clicks = 0 ∧ 0 < s.total_clicks) →
    (setInPlace d (siteKey s) s).map (updEntry rest) = d.map (updEntry (s :: rest)) := by
  intro d
  induction d with
  | nil =>
    intro _ kept hl
    simp [alookupSite] at hl
  | cons e0 tail ih =>
    intro hnd kept hl hc
    by_cases h0 : e0.1 = siteKey s
    · have hv : e0.2 = kept := by
        simp only [alookupSite] at hl
        rw [if_pos h0] at hl
        exact Option.some.inj hl
      have hktail : siteKey s ∉ tail.map (fun e => e.1) := by
        have hn : e0.1 ∉ tail.map (fun e => e.1) :=
          (List.nodup_cons.1 (by simpa using hnd)).1
        rw [h0] at hn
        exact hn
      simp only [setInPlace, if_pos h0, List.map_cons]
      congr 1
      · symm
        rw [updEntry_cons_eq s rest e0 (h0.symm)]
        rw [hv]
        have hm : mergeRule kept s = s := by simp [mergeRule, hc]
        rw [hm]
      · apply List.map_congr_left
        intro e he
        symm
        apply updEntry_cons_ne
        intro hks
        apply hktail
        rw [hks]
        exact List.mem_map.2 ⟨e, he, rfl⟩
    · have hl2 : alookupSite tail (siteKey s) = some kept := by
        simp only [alookupSite] at hl
        rwa [if_neg h0] at hl
      simp only [setInPlace, if_neg h0, List.map_cons]
      congr 1
      · symm
        apply updEntry_cons_ne
        intro hks
        exact h0 hks.symm
      · exact ih (List.nodup_cons.1 (by simpa using hnd)).2 kept hl2 hc

lemma dedupLoop_spec (l : List Site) : ∀ d : List (Key × Site),
    (d.map (fun e => e.1)).Nodup →
    dedupLoop d l
      = d.map (updEntry l)
        ++ specDedupE (l.filter (fun s => alookupSite d (siteKey s) = none)) := by
  induction l with
  | nil =>
    intro d hnd
    have hid : updEntry ([] : List Site) = id := funext updEntry_nil
    simp [dedupLoop, specDedupE, hid]
  | cons s rest ih =>
    intro d hnd
    have hmapcons : ∀ (d' : List (Key × Site)), siteKey s ∉ d'.map (fun e => e.1) →
        d'.map (updEntry (s :: rest)) = d'.map (updEntry rest) := by
      intro d' hk
      apply List.map_congr_left
      intro e he
      apply updEntry_cons_ne
      intro hks
      apply hk
      rw [hks]
      exact List.mem_map.2 ⟨e, he, rfl⟩
    cases hl : alookupSite d (siteKey s) with
    | none =>
      have hk : siteKey s ∉ d.map (fun e => e.1) := (alookupSite_eq_none_iff d _).1 hl
      have hnd2 : ((d ++ [(siteKey s, s)]).map (fun e => e.1)).Nodup := by
        rw [List.map_append]
        refine List.Nodup.append hnd (List.nodup_singleton _) ?_
        intro a ha hb
        simp at hb
        rw [hb] at ha
        exact hk ha
      rw [dedupLoop_cons_none hl, ih _ hnd2]
      have hff1 : ((rest.filter (fun t => alookupSite d (siteKey t) = none)).filter
            (fun t => siteKey t = siteKey s))
          = rest.filter (fun t => siteKey t = siteKey s) := by
        rw [List.filter_filter]
        apply List.filter_congr
        intro t _
        by_cases ht : siteKey t = siteKey s
        · simp [ht, hl]
        · simp [ht]
      have hff2 : ((rest.filter (fun t => alookupSite d (siteKey t) = none)).filter
            (fun t => ¬ siteKey t = siteKey s))
          = rest.filter (fun t => alookupSite (d ++ [(siteKey s, s)]) (siteKey t) = none) := by
        rw [List.filter_filter]
        apply List.filter_congr
        intro t _
        by_cases ht : siteKey t = siteKey s
        · simp [ht, hl, alookupSite_append_single_none]
        · by_cases ha : alookupSite d (siteKey t) = none <;>
            simp [ht, ha, alookupSite_append_single_none]
      have hfilcons : (s :: rest).filter (fun t => alookupSite d (siteKey t) = none)
          = s :: rest.filter (fun t => alookupSite d (siteKey t) = none) := by
        rw [List.filter_cons, if_pos (by simp [hl])]
      rw [hmapcons d hk, hfilcons]
      rw [show specDedupE (s :: rest.filter (fun t => alookupSite d (siteKey t) = none))
          = (siteKey s, ((rest.filter (fun t => alookupSite d (siteKey t) = none)).filter
              (fun t => siteKey t = siteKey s)).foldl mergeRule s)
            :: specDedupE ((rest.filter (fun t => alookupSite d (siteKey t) = none)).filter
              (fun t => ¬ siteKey t = siteKey s)) from by rw [specDedupE]]
      rw [hff1, hff2, List.map_append]
      simp only [List.map_cons, List.map_nil]
      rw [show updEntry rest (siteKey s, s)
          = (siteKey s, (rest.filter (fun t => siteKey t = siteKey s)).foldl mergeRule s) from rfl]
      simp [List.append_assoc]
    | some kept =>
      have hfilcons : (s :: rest).filter (fun t => alookupSite d (siteKey t) = none)
          = rest.filter (fun t => alookupSite d (siteKey t) = none) := by
        rw [List.filter_cons, if_neg (by simp [hl])]
      by_cases hc : kept.total_clicks = 0 ∧ 0 < s.total_clicks
      · have hnd2 : ((setInPlace d (siteKey s) s).map (fun e => e.1)).Nodup := by
          rw [setInPlace_map_fst]
          exact hnd
        rw [dedupLoop_cons_repl hl hc, ih _ hnd2]
        have hfs : rest.filter
              (fun t => alookupSite (setInPlace d (siteKey s) s) (siteKey t) = none)
            = rest.filter (fun t => alookupSite d (siteKey t) = none) := by
          apply List.filter_congr
          intro t _
          simp [alookupSite_setInPlace_none]
        rw [hfs, setInPlace_map_updEntry s rest d hnd kept hl hc, hfilcons]
      · rw [dedupLoop_cons_keep hl hc, ih _ hnd, hfilcons]
        congr 1
        apply List.map_congr_left
        intro e he
        by_cases hks : siteKey s = e.1
        · have hv : e.2 = kept :=
            alookupSite_mem_nodup d hnd (siteKey s) kept hl e he hks.symm
          rw [updEntry_cons_eq s rest e hks, hv]
          have hm : mergeRule kept s = kept := by simp [mergeRule, hc]
          rw [hm, ← hv, Prod.mk.eta]
        · exact (updEntry_cons_ne s rest e hks).symm

lemma dedupSites_eq_specDedup (l : List Site) : dedupSites l = specDedup l := by
  unfold dedupSites specDedup
  rw [dedupLoop_spec l [] (by simp)]
  have hf : l.filter (fun s => alookupSite [] (siteKey s) = none) = l :=
    List.filter_eq_self.2 (fun a _ => by simp [alookupSite])
  rw [hf]
  simp

/-- Claim C2: the deduplication stage of `fetch_all_sites` is exactly the
§4.3 specification: Sites are keyed by (normalized hostname of domain,
view-clicks URL); per key the first-seen Site is kept unless a later Site
with that key has positive `total_clicks` while the kept one has zero, in
which case the later one takes the same slot; output order is the order of
first key appearance. -/
theorem dedup_matches_spec :
    (∀ l : List Site, dedupSites l = specDedup l)
    ∧ ∀ (env : List Char → Option Page) (srcs : List SourceCfg),
      fetch_all_sites env srcs = specDedup (gatherAll env srcs) :=
  ⟨dedupSites_eq_specDedup,
    fun env srcs => dedupSites_eq_specDedup (gatherAll env srcs)⟩

lemma foldl_mergeRule_mem (l : List Site) : ∀ s, l.foldl mergeRule s ∈ s :: l := by
  induction l with
  | nil => intro s; simp
  | cons t rest ih =>
    intro s
    have h := ih (mergeRule s t)
    rcases List.mem_cons.1 h with h1 | h1
    · rw [List.foldl_cons, h1]
      by_cases hc : s.total_clicks = 0 ∧ 0 < t.total_clicks
      · rw [show mergeRule s t = t from by simp [mergeRule, hc]]
        exact List.mem_cons.2 (Or.inr (List.mem_cons_self _ _))
      · rw [show mergeRule s t = s from by simp [mergeRule, hc]]
        exact List.mem_cons_self _ _
    · rw [List.foldl_cons]
      exact List.mem_cons.2 (Or.inr (List.mem_cons.2 (Or.inr h1)))

lemma mergeFold_key (s : Site) (l : List Site) :
    siteKey ((l.filter (fun t => siteKey t = siteKey s)).foldl mergeRule s) = siteKey s := by
  have hm := foldl_mergeRule_mem (l.filter (fun t => siteKey t = siteKey s)) s
  rcases List.mem_cons.1 hm with h1 | h1
  · rw [h1]
  · have := (List.mem_filter.1 h1).2
    simpa using this

lemma specDedupE_key_eq (n : Nat) : ∀ l : List Site, l.length ≤ n →
    ∀ e ∈ specDedupE l, e.1 = siteKey e.2 ∧ ∃ t ∈ l, siteKey t = e.1 := by
  induction n with
  | zero =>
    intro l hlen e he
    rw [List.length_eq_zero.1 (Nat.le_zero.1 hlen)] at he
    simp [specDedupE] at he
  | succ n ih =>
    intro l hlen e he
    cases l with
    | nil => simp [specDedupE] at he
    | cons s rest =>
      rw [specDedupE] at he
      rcases List.mem_cons.1 he with h1 | h1
      · subst h1
        refine ⟨(mergeFold_key s rest).symm, s, List.mem_cons_self _ _, rfl⟩
      · have hlen2 : (rest.filter (fun t => ¬ siteKey t = siteKey s)).length ≤ n := by
          have := List.length_filter_le (fun t => decide ¬ siteKey t = siteKey s) rest
          simp only [List.length_cons] at hlen
          omega
        obtain ⟨hk, t, ht, hkt⟩ := ih _ hlen2 e h1
        exact ⟨hk, t, List.mem_cons.2 (Or.inr (List.mem_filter.1 ht).1), hkt⟩

lemma specDedup_pairwise (n : Nat) : ∀ l : List Site, l.length ≤ n →
    (specDedup l).Pairwise (fun a b => ¬ siteKey a = siteKey b) := by
  induction n with
  | zero =>
    intro l hlen
    rw [List.length_eq_zero.1 (Nat.le_zero.1 hlen)]
    simp [specDedup, specDedupE]
  | succ n ih =>
    intro l hlen
    cases l with
    | nil => simp [specDedup, specDedupE]
    | cons s rest =>
      have hlen2 : (rest.filter (fun t => ¬ siteKey t = siteKey s)).length ≤ n := by
        have := List.length_filter_le (fun t => decide ¬ siteKey t = siteKey s) rest
        simp only [List.length_cons] at hlen
        omega
      rw [show specDedup (s :: rest)
          = ((rest.filter (fun t => siteKey t = siteKey s)).foldl mergeRule s)
            :: specDedup (rest.filter (fun t => ¬ siteKey t = siteKey s)) from by
        unfold specDedup
        rw [specDedupE]
        simp]
      refine List.Pairwise.cons ?_ (ih _ hlen2)
      intro b hb
      rw [mergeFold_key s rest]
      obtain ⟨e, hee, heb⟩ := List.mem_map.1 hb
      obtain ⟨hk, t, ht, hkt⟩ :=
        specDedupE_key_eq (rest.filter (fun t => ¬ siteKey t = siteKey s)).length
          _ (le_refl _) e hee
      have htne : ¬ siteKey t = siteKey s := by
        have := (List.mem_filter.1 ht).2
        simpa using this
      intro hcontra
      apply htne
      rw [hkt, hk, heb, ← hcontra]

/-- Claim C9: in every list returned by `fetch_all_sites`, the dedup keys
(normalized hostname of the domain paired with the view-clicks URL) are
pairwise distinct. -/
theorem fetch_all_sites_keys_distinct (env : List Char → Option Page)
    (srcs : List SourceCfg) :
    (fetch_all_sites env srcs).Pairwise (fun a b => ¬ siteKey a = siteKey b) := by
  have h : fetch_all_sites env srcs = specDedup (gatherAll env srcs) :=
    dedupSites_eq_specDedup (gatherAll env srcs)
  rw [h]
  exact specDedup_pairwise (gatherAll env srcs).length _ (le_refl _)

end Tele
